import Mathlib

/-!
Verification development for the specification-driven command dispatcher of
`aws-parallelcluster` (`cli/src/pcluster/cli.py`).

The Python source is shallowly embedded: pure helper functions become Lean
functions on `String` / `List Char`; Python `dict`s become association lists
(`List (String × _)`) whose key uniqueness is an intrinsic dict invariant;
fallible code returns `Option` / `Except`.  The process-level side effects of
`dispatch` / `main` (printing, `sys.exit`) are reified as a `RunOutcome` value
recording what was printed and how the process ended.
-/

namespace PclusterCli

/-! ### ASCII character classes and lowering

`cli.py` manipulates names with `re.sub` patterns over the classes `[A-Z]`,
`[a-z]`, `[a-z0-9]` (ASCII-only) and with `str.lower` / `str.replace`.
-/

/-- ASCII uppercase test, the regex class `[A-Z]`. -/
def isUpperA (c : Char) : Bool := 65 ≤ c.toNat && c.toNat ≤ 90

/-- ASCII lowercase test, the regex class `[a-z]`. -/
def isLowerA (c : Char) : Bool := 97 ≤ c.toNat && c.toNat ≤ 122

/-- ASCII digit test, part of the regex class `[a-z0-9]`. -/
def isDigitA (c : Char) : Bool := 48 ≤ c.toNat && c.toNat ≤ 57

/-- ASCII lowering of one character, as `str.lower` acts on the characters the
`[A-Z]`-based patterns of `cli.py` can produce. -/
def asciiLower (c : Char) : Char :=
  if isUpperA c then Char.ofNat (c.toNat + 32) else c

/-- The newline character: the regex `.` matches any character except this. -/
def nlChar : Char := Char.ofNat 10

/-- The hyphen `-`. -/
def hyphenChar : Char := Char.ofNat 45

/-- The underscore `_`. -/
def underscoreChar : Char := Char.ofNat 95

/-! ### The two `re.sub` passes of `to_kebab_case` / `to_snake_case`

`re.sub("(.)([A-Z][a-z]+)", r"\1<sep>\2", s)`: scanning left to right, a match
is any non-newline character followed by an uppercase letter followed by a
maximal nonempty run of lowercase letters; the separator is inserted between
the first character and the uppercase letter, and scanning resumes after the
match. -/

/-- Whether a list starts with an ASCII lowercase character (the `[a-z]+` part
of the first pattern needs at least one lowercase letter). -/
def headIsLower : List Char → Bool
  | [] => false
  | c :: _ => isLowerA c

/-- One `re.sub` pass for the pattern `(.)([A-Z][a-z]+)` with replacement
inserting `sep` between group 1 and group 2.  A match is a non-newline
character, an uppercase letter, and a maximal nonempty lowercase run; the
engine then resumes scanning right after the run.  The Boolean argument is
`true` while the scanner is still inside the lowercase run consumed by the
previous match (those characters are copied through and cannot start a new
match); the entry point is `skip = false`. -/
def sub1 (sep : Char) : Bool → List Char → List Char
  | _, [] => []
  | _, [c] => [c]
  | skip, c :: y :: rest2 =>
    if skip && isLowerA c then
      c :: sub1 sep true (y :: rest2)
    else if c ≠ nlChar && isUpperA y && headIsLower rest2 then
      c :: sep :: y :: sub1 sep true rest2
    else
      c :: sub1 sep false (y :: rest2)

/-- One `re.sub` pass for the pattern `([a-z0-9])([A-Z])` with replacement
inserting `sep` between the two characters; scanning resumes after the match. -/
def sub2 (sep : Char) : List Char → List Char
  | [] => []
  | [c] => [c]
  | x :: y :: rest =>
    if (isLowerA x || isDigitA x) && isUpperA y then
      x :: sep :: y :: sub2 sep rest
    else
      x :: sub2 sep (y :: rest)

/-- Replacement of one character by another, pointwise. -/
def replFun (a b : Char) (c : Char) : Char := if c = a then b else c

/-- Python `str.replace(a, b)` for single characters: replace every
occurrence. -/
def pyReplace (a b : Char) (l : List Char) : List Char :=
  l.map (replFun a b)

/-- Character-list body of `to_kebab_case`:
`re.sub("(.)([A-Z][a-z]+)", r"\1-\2", input).replace('_', '-')` then
`re.sub("([a-z0-9])([A-Z])", r"\1-\2", str1).lower()`. -/
def kebabL (l : List Char) : List Char :=
  (sub2 hyphenChar (pyReplace underscoreChar hyphenChar (sub1 hyphenChar false l))).map asciiLower

/-- Character-list body of `to_snake_case`:
`re.sub("(.)([A-Z][a-z]+)", r"\1_\2", input).replace('-', '_')` then
`re.sub("([a-z0-9])([A-Z])", r"\1_\2", str1).lower()`. -/
def snakeL (l : List Char) : List Char :=
  (sub2 underscoreChar (pyReplace hyphenChar underscoreChar (sub1 underscoreChar false l))).map asciiLower

/-- `to_kebab_case` of `cli.py` (lines 89-92). -/
def to_kebab_case (s : String) : String := String.mk (kebabL s.data)

/-- `to_snake_case` of `cli.py` (lines 95-98). -/
def to_snake_case (s : String) : String := String.mk (snakeL s.data)

example : to_kebab_case "ClusterName" = "cluster-name" := by decide
example : to_kebab_case "list_clusters" = "list-clusters" := by decide
example : to_snake_case "cluster-name" = "cluster_name" := by decide
example : to_snake_case "ListClustersABCx" = "list_clusters_ab_cx" := by rfl
example : to_kebab_case "ABcDEf" = "a-bc-d-ef" := by decide
example : to_snake_case "a0A" = "a0_a" := by decide
example : to_kebab_case "-__-" = "----" := by decide
example : to_snake_case "Ab1Cd" = "ab1_cd" := by decide
example : to_kebab_case "a\nBc" = "a\nbc" := by decide

/-! ### Payload field naming

`convert_args` renames a Body parameter's underscored key with
`pcluster.utils.camelcase` and then lowers the first letter. -/

/-- ASCII uppercasing of one character, as `str.capitalize` acts on the first
character of an ASCII word. -/
def asciiUpper (c : Char) : Char :=
  if isLowerA c then Char.ofNat (c.toNat - 32) else c

/-- Python `str.capitalize` on an ASCII word: first character uppercased, the
rest lowercased. -/
def pyCapitalizeL : List Char → List Char
  | [] => []
  | c :: rest => asciiUpper c :: rest.map asciiLower

/-- Python `str.split(sep)` for a one-character separator: consecutive
separators yield empty components. -/
def splitOnChar (sep : Char) : List Char → List (List Char)
  | [] => [[]]
  | c :: rest =>
    if c = sep then [] :: splitOnChar sep rest
    else
      match splitOnChar sep rest with
      | [] => [[c]]
      | w :: ws => (c :: w) :: ws

/-- Modelled from the spec: `pcluster.utils.camelcase` (imported by `cli.py`
but not part of the given sources) turns an underscored name into its
mixed-case form — each underscore-separated word capitalized and joined
(spec 4.2: "internal argument keys → request-payload field names
(mixed-case, first letter lowered)"; the first-letter lowering is done
separately in `convert_args`). -/
def camelcase (s : String) : String :=
  String.mk (((splitOnChar (Char.ofNat 95) s.data).map pyCapitalizeL).foldr (· ++ ·) [])

/-- Lowering of the first character, `param_name[0].lower() + param_name[1:]`
in `convert_args`; on the empty string Python raises `IndexError`, embedded
as `none`. -/
def lowerFirst (s : String) : Option String :=
  match s.data with
  | [] => none
  | c :: rest => some (String.mk (asciiLower c :: rest))

example : camelcase "cluster_name" = "ClusterName" := by decide
example : lowerFirst "ClusterName" = some "clusterName" := by decide

/-! ### Value coercion helpers (`cli.py` lines 101-119) -/

/-- `bool_converter` (lines 101-103): the Python membership test
`in_str not in {'false', 'False', 'FALSE', False}`; an argparse-supplied
string never compares equal to the Python boolean `False`, so only the three
string literals matter. -/
def bool_converter (in_str : String) : Bool :=
  !(in_str = "false" || in_str = "False" || in_str = "FALSE")

/-- `re_validator` (lines 106-112).  The compiled regular expression is
embedded as an abstract match predicate `rmatch` (standing for
`re.compile(rexp_str).match · ≠ None`); on a failed match the function prints
a message dictionary and calls `sys.exit(1)`, embedded as `.error` carrying
the exit code and message; on success it returns the input string. -/
def re_validator (rmatch : String → Bool) (rexp_str param in_str : String) :
    Except (Nat × String) String :=
  if rmatch in_str = false then
    .error (1, "Bad Request: '" ++ in_str ++ "' does not match '" ++
      rexp_str ++ "' - '" ++ param ++ "'")
  else
    .ok in_str

/-- UTF-8 bytes of one character (Python `str.encode('utf-8')` per code
point). -/
def utf8Bytes (c : Char) : List Nat :=
  let n := c.toNat
  if n < 128 then [n]
  else if n < 2048 then [192 + n / 64, 128 + n % 64]
  else if n < 65536 then [224 + n / 4096, 128 + (n / 64) % 64, 128 + n % 64]
  else [240 + n / 262144, 128 + (n / 4096) % 64, 128 + (n / 64) % 64, 128 + n % 64]

/-- Python `str.encode('utf-8')`: byte sequence of a string. -/
def utf8encode (s : String) : List Nat :=
  s.data.foldr (fun c acc => utf8Bytes c ++ acc) []

/-- The base64 alphabet used by `base64.b64encode`. -/
def b64Char (n : Nat) : Char :=
  "ABCDEFGHIJKLMNOPQRSTUVWXYZabcdefghijklmnopqrstuvwxyz0123456789+/".data.getD n (Char.ofNat 65)

/-- `base64.b64encode` on a byte sequence, with `=` padding. -/
def base64encode : List Nat → List Char
  | [] => []
  | [b1] => [b64Char (b1 / 4), b64Char (b1 % 4 * 16), Char.ofNat 61, Char.ofNat 61]
  | [b1, b2] => [b64Char (b1 / 4), b64Char (b1 % 4 * 16 + b2 / 16),
                 b64Char (b2 % 16 * 4), Char.ofNat 61]
  | b1 :: b2 :: b3 :: rest =>
      b64Char (b1 / 4) :: b64Char (b1 % 4 * 16 + b2 / 16) ::
      b64Char (b2 % 16 * 4 + b3 / 64) :: b64Char (b3 % 64) :: base64encode rest

/-- `read_file_b64` (lines 115-119): read the file at `path`, encode its text
as UTF-8 and base64-encode the bytes.  The file system is embedded as a pure
mapping `fs` from paths to file contents. -/
def read_file_b64 (fs : String → String) (path : String) : String :=
  String.mk (base64encode (utf8encode (fs path)))

example : read_file_b64 (fun _ => "hello") "/tmp/f" = "aGVsbG8=" := by decide

/-! ### Schema model and resolver (`cli.py` lines 122-197)

OpenAPI dictionaries are embedded as structures whose `Option` fields record
key presence.  `_resolve_ref` performs a shallow `dict.update` from the
`components.schemas` table; a missing reference target is Python's `KeyError`,
embedded as `none`.  Nested schema positions (the `items` schema of an
array-typed query parameter, a request-body property schema) are embedded at
the nesting depth the code reads them at. -/

/-- Schema dictionary in a nested position: exactly the keys `cli.py` reads
there (`$ref`, `type`, `pattern`, `enum`, `format`, `description`). -/
structure SchemaLeaf where
  ref : Option String := none
  type_ : Option String := none
  pattern : Option String := none
  enum : Option (List String) := none
  format : Option String := none
  description : Option String := none
deriving DecidableEq, Repr

/-- Schema dictionary in a top position (a query parameter's `schema`, a
request body schema, a `components.schemas` entry). -/
structure SchemaObj where
  ref : Option String := none
  type_ : Option String := none
  pattern : Option String := none
  enum : Option (List String) := none
  format : Option String := none
  description : Option String := none
  items : Option SchemaLeaf := none
  required : Option (List String) := none
  properties : Option (List (String × SchemaLeaf)) := none
deriving DecidableEq, Repr

/-- Shallow `subspec.update(table_entry)`: keys present in the table entry
overwrite the subschema's. -/
def mergeObj (s t : SchemaObj) : SchemaObj :=
  { ref := t.ref <|> s.ref
    type_ := t.type_ <|> s.type_
    pattern := t.pattern <|> s.pattern
    enum := t.enum <|> s.enum
    format := t.format <|> s.format
    description := t.description <|> s.description
    items := t.items <|> s.items
    required := t.required <|> s.required
    properties := t.properties <|> s.properties }

/-- Leaf view of a `components.schemas` entry (the keys a nested position
reads). -/
def leafOfObj (t : SchemaObj) : SchemaLeaf :=
  { ref := t.ref, type_ := t.type_, pattern := t.pattern, enum := t.enum,
    format := t.format, description := t.description }

/-- Shallow `dict.update` of a nested schema with a table entry. -/
def mergeLeaf (s : SchemaLeaf) (t : SchemaObj) : SchemaLeaf :=
  { ref := t.ref <|> s.ref
    type_ := t.type_ <|> s.type_
    pattern := t.pattern <|> s.pattern
    enum := t.enum <|> s.enum
    format := t.format <|> s.format
    description := t.description <|> s.description }

/-- `_resolve_ref` (lines 122-126) for a top-position schema dictionary. -/
def _resolve_ref (schemas : List (String × SchemaObj)) (s : SchemaObj) : Option SchemaObj :=
  match s.ref with
  | none => some s
  | some r => (schemas.lookup r).map (mergeObj s)

/-- `_resolve_ref` for a nested schema dictionary. -/
def _resolve_ref_leaf (schemas : List (String × SchemaObj)) (s : SchemaLeaf) : Option SchemaLeaf :=
  match s.ref with
  | none => some s
  | some r => (schemas.lookup r).map (mergeLeaf s)

/-- Normalized parameter descriptor as built by `_resolve_param` /
`_resolve_body` and consumed by the grammar builder and the argument router. -/
structure ParamDesc where
  name : String
  body : Bool
  required : Option Bool := none
  description : Option String := none
  type_ : Option String := none
  enum : Option (List String) := none
  pattern : Option String := none
  multi : Bool := false
deriving DecidableEq, Repr

/-- A declared query parameter of an operation (`name`, `schema`, optional
`required` and `description` keys). -/
structure QueryParam where
  name : String
  schema : SchemaObj
  required : Option Bool := none
  description : Option String := none
deriving DecidableEq, Repr

/-- A declared operation: `operationId`, `parameters`, optional `requestBody`
(embedded directly as the schema under `content.application/json.schema`),
the `x-openapi-router-controller` binding annotation and optional
`description`. -/
structure Operation where
  operationId : String
  parameters : List QueryParam
  requestBody : Option SchemaObj := none
  controller : String
  description : Option String := none
deriving DecidableEq, Repr

/-- The parsed OpenAPI document: the `components.schemas` table and the
`paths` mapping (path → method → operation). -/
structure ApiSpec where
  schemas : List (String × SchemaObj)
  paths : List (String × List (String × Operation))
deriving DecidableEq, Repr

/-- `_resolve_param` (lines 129-145). -/
def _resolve_param (spec : ApiSpec) (param : QueryParam) : Option ParamDesc := do
  let schema0 ← _resolve_ref spec.schemas param.schema
  let base : ParamDesc :=
    { name := to_kebab_case param.name, body := false,
      description := param.description, required := param.required }
  match schema0.items with
  | none =>
    some { base with enum := schema0.enum, type_ := schema0.type_, pattern := schema0.pattern }
  | some it => do
    let itr ← _resolve_ref_leaf spec.schemas it
    some { base with multi := true, enum := itr.enum, type_ := itr.type_, pattern := itr.pattern }

/-- `_resolve_body` (lines 148-166), applied to the request-body schema. -/
def _resolve_body (schemas : List (String × SchemaObj)) (rb : SchemaObj) :
    Option (List ParamDesc) := do
  let body_content ← _resolve_ref schemas rb
  let req := body_content.required.getD []
  let props ← body_content.properties
  props.mapM fun pr => do
    let pd ← _resolve_ref_leaf schemas pr.2
    let base : ParamDesc :=
      { name := to_kebab_case pr.1, body := true, required := some (req.contains pr.1),
        description := pd.description, type_ := pd.type_, enum := pd.enum,
        pattern := pd.pattern }
    some (if pd.format = some "byte" then { base with type_ := some "byte" } else base)

/-- An operation descriptor of the model: normalized parameters and the
handler binding.  The handler is recorded as its qualified
`module.function` name; the actual callable resolution
(`connexion.utils.get_function_from_name`) is external to the repository. -/
structure OpDescr where
  params : List ParamDesc
  func : String
  description : Option String := none
deriving DecidableEq, Repr

/-- Python `dict` assignment `d[k] = v`: overwrite in place, else append. -/
def dictInsert {β : Type _} (d : List (String × β)) (k : String) (v : β) :
    List (String × β) :=
  if d.any (fun kv => kv.1 = k) then
    d.map (fun kv => if kv.1 = k then (k, v) else kv)
  else d ++ [(k, v)]

/-- The operations of a schema document in iteration order: every method of
every path. -/
def allOps (spec : ApiSpec) : List (String × Operation) :=
  (spec.paths.map Prod.snd).foldr (· ++ ·) []

/-- Per-operation body of the `load_model` loop (lines 180-195): resolve the
query parameters, extend with the resolved request body when one is declared,
and bind the handler name `module.to_snake_case(op_name)`. -/
def resolve_operation (spec : ApiSpec) (operation : Operation) : Option OpDescr := do
  let op_name := to_kebab_case operation.operationId
  let qparams ← operation.parameters.mapM (_resolve_param spec)
  let params ← match operation.requestBody with
    | none => pure qparams
    | some rb => do
      let bs ← _resolve_body spec.schemas rb
      pure (qparams ++ bs)
  let func_name := to_snake_case op_name
  pure { params := params, func := operation.controller ++ "." ++ func_name,
         description := operation.description }

/-- Loop of `load_model`: enter each operation's descriptor into the model
dictionary under the kebab-cased `operationId`. -/
def load_model_go (spec : ApiSpec) :
    List (String × Operation) → List (String × OpDescr) →
    Option (List (String × OpDescr))
  | [], model => some model
  | mop :: rest, model =>
    match resolve_operation spec mop.2 with
    | none => none
    | some descr =>
      load_model_go spec rest (dictInsert model (to_kebab_case mop.2.operationId) descr)

/-- `load_model` (lines 169-197): walk every path and method, resolve the
operation, and build the model dictionary. -/
def load_model (spec : ApiSpec) : Option (List (String × OpDescr)) :=
  load_model_go spec (allOps spec) []

/-- Number of operations a schema document declares (one per path/method
pair). -/
def countOperations (spec : ApiSpec) : Nat :=
  ((spec.paths.map fun pr => pr.2.length).foldr (· + ·) 0)

/-! ### Grammar builder: per-flag construction (`cli.py` lines 277-299) -/

/-- The value-coercion function attached to a flag, as a closed tag: the
`type_map` entries `int` / `boolean` / `byte` (backed by Python `int`,
`bool_converter`, `read_file_b64`), absence of coercion (`type=None`), or the
pattern validator `partial(re_validator, pattern, name)`. -/
inductive TypeCoerce where
  | noCoerce
  | pyInt
  | boolConv
  | fileB64
  | patternCheck (pat : String) (name : String)
deriving DecidableEq, Repr

/-- `type_map = {'int': int, 'boolean': bool_converter, 'byte': read_file_b64}`
(line 277). -/
def type_map : List (String × TypeCoerce) :=
  [("int", .pyInt), ("boolean", .boolConv), ("byte", .fileB64)]

/-- Coercion selection of the grammar builder (lines 288-291): a present
`pattern` selects the pattern validator, otherwise `type_map.get` on the
parameter's `type` (`None` when the tag is absent or unmapped). -/
def select_type_coerce (param : ParamDesc) : TypeCoerce :=
  match param.pattern with
  | some pat => .patternCheck pat param.name
  | none =>
    match param.type_ with
    | none => .noCoerce
    | some t => (type_map.lookup t).getD .noCoerce

/-- The argparse flag produced for one parameter by `subparser.add_argument`
(lines 285-299). -/
structure FlagSpec where
  flag : String
  required : Bool
  choices : Option (List String)
  multi : Bool
  coerce : TypeCoerce
  metavar : Option String
deriving DecidableEq, Repr

/-- Per-parameter flag construction of the grammar builder. -/
def gen_flag (param : ParamDesc) : FlagSpec :=
  { flag := "--" ++ param.name
    required := param.required.getD false
    choices := param.enum
    multi := param.multi
    coerce := select_type_coerce param
    metavar := if 4 < (param.enum.getD []).length then some param.name.toUpper else none }

/-! ### Argument router (`convert_args`, lines 200-222)

The parsed-argument namespace is embedded as an association list with unique
keys (a Python `dict`); values are an arbitrary type `β`.  `dict.pop` with a
missing key raises `KeyError`, embedded as `none`. -/

/-- `dict.pop(k)`: value and remaining dictionary, or `none` (`KeyError`). -/
def listPop {β : Type _} (k : String) : List (String × β) → Option (β × List (String × β))
  | [] => none
  | (k', v) :: rest =>
    if k' = k then some (v, rest)
    else (listPop k rest).map fun pr => (pr.1, (k', v) :: pr.2)

/-- Python `d1.update(d2)`: assign every entry of `d2` into `d1` in order. -/
def dictUpdate {β : Type _} (d1 d2 : List (String × β)) : List (String × β) :=
  d2.foldl (fun acc kv => dictInsert acc kv.1 kv.2) d1

/-- The underscored key a parameter's value is parsed under,
`param_name = to_snake_case(param['name'])` (line 208). -/
def snakeKey (p : ParamDesc) : String := to_snake_case p.name

/-- The payload key a Body parameter's value is stored under:
`camelcase(to_snake_case(name))` with the first letter lowered. -/
def bodyKey (p : ParamDesc) : Option String :=
  lowerFirst (camelcase (snakeKey p))

/-- Loop of `convert_args`: walk the declared parameters in order, popping
each one's underscored name from the parsed arguments and filing the value
into the payload, the positional list, or the keyword dictionary; finally
merge the leftover parsed arguments into the keyword dictionary. -/
def convert_args_go {β : Type _} :
    List ParamDesc → List (String × β) → List (String × β) → List β →
    List (String × β) →
    Option (List (String × β) × List β × List (String × β))
  | [], args_in, body, pos_args, kwargs =>
    some (body, pos_args, dictUpdate kwargs args_in)
  | p :: ps, args_in, body, pos_args, kwargs =>
    match listPop (snakeKey p) args_in with
    | none => none
    | some (value, args') =>
      if p.body then
        match bodyKey p with
        | none => none
        | some bk => convert_args_go ps args' (dictInsert body bk value) pos_args kwargs
      else if p.required.getD false then
        convert_args_go ps args' body (pos_args ++ [value]) kwargs
      else
        convert_args_go ps args' body pos_args
          (dictInsert kwargs (snakeKey p) value)

/-- `convert_args` (lines 200-222): partition the parsed arguments of one
operation into `(body, pos_args, kwargs)`. -/
def convert_args {β : Type _} (params : List ParamDesc) (args_in : List (String × β)) :
    Option (List (String × β) × List β × List (String × β)) :=
  convert_args_go params args_in [] [] []

/-- The payload key of a Body parameter, defaulted (used only where
`bodyKey p` is known to be present). -/
def bkey (p : ParamDesc) : String := (bodyKey p).getD ""

/-- Value of a key in the parsed-argument dictionary, with default. -/
def getv {β : Type _} (args : List (String × β)) (k : String) (d : β) : β :=
  (List.lookup k args).getD d

/-! ### Dispatch and result pipeline (`cli.py` lines 225-265, 331-364)

Handlers are embedded as functions returning `Except ε (Option ρ)`: `.error`
is a raised exception, `.ok none` a Python `None` result.  What `dispatch`
prints and how the process run ends are reified as values. -/

/-- One item printed to standard output by the dispatch pipeline. -/
inductive Printed (ρ μ : Type) where
  /-- `json.dumps(json.loads(encoder.encode(v)), indent=2)` of a result. -/
  | jsonIndent2 (v : ρ)
  /-- the encoded structured error object of a caught handler exception. -/
  | errJson (m : μ)
  /-- `pprint(ret)` of the timing middleware. -/
  | prettyRet (v : Option ρ)
  /-- the `Took: ... ms` line of the timing middleware. -/
  | tookLine (ms : Nat)
deriving DecidableEq, Repr

/-- An exception escaping `dispatch` to `main`'s generic boundary. -/
inductive PyExc (ε : Type) where
  /-- an exception raised by the handler (outside the dispatch `try`). -/
  | handlerExc (e : ε)
  /-- `KeyError` / `IndexError` from the routing step. -/
  | keyErr
deriving DecidableEq, Repr

/-- How one dispatch run ends: `sys.exit(code)` from inside `dispatch`, a
normal return to `main`, or an exception propagating to `main`. -/
inductive RunOutcome (ρ ε μ : Type) where
  | exited (code : Nat) (printed : List (Printed ρ μ))
  | finished (printed : List (Printed ρ μ))
  | raised (e : PyExc ε) (printed : List (Printed ρ μ))
deriving DecidableEq, Repr

/-- `list_clusters_middleware` (lines 225-234): pop the `time` flag (default
`False`), invoke the handler, and when the flag is truthy pretty-print the
result plus an elapsed-time line and return `None` to suppress the default
rendering.  `truthyA` embeds Python truthiness of argument values and
`elapsed` the measured wall-clock duration. -/
def list_clusters_middleware {β ρ ε μ : Type} (truthyA : β → Bool) (elapsed : Nat)
    (func : List β → List (String × β) → Except ε (Option ρ))
    (_body : List (String × β)) (pos_args : List β) (kwargs : List (String × β)) :
    Except ε (Option ρ × List (Printed ρ μ)) :=
  let popped := listPop "time" kwargs
  let time_func := match popped with
    | some (tv, _) => truthyA tv
    | none => false
  let kwargs' := match popped with
    | some (_, rest) => rest
    | none => kwargs
  match func pos_args kwargs' with
  | .error e => .error e
  | .ok ret =>
    if time_func then .ok (none, [.prettyRet ret, .tookLine elapsed])
    else .ok (ret, [])

/-- Python truthiness of a handler result: `None` and falsy values suppress
the final print. -/
def retTruthy {ρ : Type} (truthyR : ρ → Bool) : Option ρ → Bool
  | none => false
  | some v => truthyR v

/-- `dispatch` (lines 237-265) for one operation: route the arguments, bind
the body payload as first argument when non-empty, invoke through the
registered middleware (`{'list-clusters': list_clusters_middleware}`) or
directly inside the `try`/`except` boundary, and print a non-empty result.
`excMessage` embeds `pcluster.api.errors.exception_message` composed with the
JSON encoding (modelled from the spec: "converted to a structured error
object (message plus classification)"; the helpers live outside the given
sources). -/
def dispatch {β ρ ε μ : Type} (truthyA : β → Bool) (truthyR : ρ → Bool)
    (excMessage : ε → μ) (elapsed : Nat) (operation : String)
    (params : List ParamDesc)
    (handler : Option (List (String × β)) → List β → List (String × β) → Except ε (Option ρ))
    (args : List (String × β)) : RunOutcome ρ ε μ :=
  match convert_args params args with
  | none => .raised .keyErr []
  | some (body, pos_args, kwargs) =>
    let dispatch_func := fun pos kw =>
      handler (if body.isEmpty then none else some body) pos kw
    if operation = "list-clusters" then
      match list_clusters_middleware truthyA elapsed dispatch_func body pos_args kwargs with
      | .error e => .raised (.handlerExc e) []
      | .ok (ret, printed) =>
        match ret with
        | some v => if truthyR v then .finished (printed ++ [.jsonIndent2 v])
                    else .finished printed
        | none => .finished printed
    else
      match dispatch_func pos_args kwargs with
      | .error e => .exited 1 [.errJson (excMessage e)]
      | .ok ret =>
        match ret with
        | some v => if truthyR v then .finished [.jsonIndent2 v]
                    else .finished []
        | none => .finished []

/-- `main`'s reaction (lines 348-364) to one dispatched operation: a normal
return reaches `sys.exit(0)`; a `sys.exit` from inside `dispatch` propagates
(`SystemExit` is not an `Exception`); any propagated exception is caught by
the outer handlers, logged, and the process exits 1. -/
def main_run {ρ ε μ : Type} : RunOutcome ρ ε μ → Nat × List (Printed ρ μ)
  | .finished printed => (0, printed)
  | .exited code printed => (code, printed)
  | .raised _ printed => (1, printed)

/-- Default result rendering of `dispatch` (lines 263-265): a truthy result
is printed as 2-space-indented JSON, an absent or falsy result prints
nothing. -/
def default_render {ρ μ : Type} (truthyR : ρ → Bool) : Option ρ → List (Printed ρ μ)
  | some v => if truthyR v then [.jsonIndent2 v] else []
  | none => []

/-- Example file system used to evaluate `read_file_b64` on concrete input. -/
def fsExample : String → String := fun p => if p = "/cfg" then "hello" else ""

/-- Example schema document whose two operations have distinct
`operationId`s that normalize to the same kebab-case name. -/
def specCollide : ApiSpec :=
  { schemas := []
    paths :=
      [("/a", [("get", { operationId := "ListClusters", parameters := [],
                         controller := "m" })]),
       ("/b", [("get", { operationId := "list_clusters", parameters := [],
                         controller := "m" })])] }

/-- Example schema document with two operations whose normalized names are
distinct, one of them with zero parameters. -/
def specExample : ApiSpec :=
  { schemas := []
    paths :=
      [("/c", [("get", { operationId := "ListClusters", parameters := [],
                         controller := "m" }),
               ("post", { operationId := "CreateCluster", parameters := [],
                          controller := "m" })])] }

/-- Example request-body schema with one byte-format string property. -/
def byteBodySchema : SchemaObj :=
  { ref := none
    required := some ["clusterConfiguration"]
    properties := some
      [("clusterConfiguration",
        { ref := none, type_ := some "string", format := some "byte" })] }

/-! ## Claim theorems -/

/-- C10: `bool_converter` is total and maps exactly the strings `false`,
`False` and `FALSE` to `false`; every other string, including `0`, `no`,
`FaLsE` and the empty string, maps to `true`. -/
theorem bool_converter_total_spec :
    (∀ s : String, bool_converter s = false ↔ (s = "false" ∨ s = "False" ∨ s = "FALSE"))
    ∧ bool_converter "0" = true ∧ bool_converter "no" = true
    ∧ bool_converter "FaLsE" = true ∧ bool_converter "" = true := by
  refine ⟨fun s => ?_, by decide, by decide, by decide, by decide⟩
  simp only [bool_converter, Bool.not_eq_false']
  simp [or_assoc]

/-- C3: for a parameter with a `pattern`, the pattern coercion fails with
exit status 1 before any downstream consumer runs when the value does not
match (the result is the same error whatever the continuation is), and a
matching value is returned to routing completely unmodified. -/
theorem re_validator_gates_handler {γ : Type} (rmatch : String → Bool)
    (rexp_str param in_str : String) :
    (rmatch in_str = true →
      re_validator rmatch rexp_str param in_str = .ok in_str)
    ∧ (rmatch in_str = false →
      ∀ handle : String → γ,
        (re_validator rmatch rexp_str param in_str).map handle =
          .error (1, "Bad Request: \x27" ++ in_str ++ "\x27 does not match \x27" ++
            rexp_str ++ "\x27 - \x27" ++ param ++ "\x27")) := by
  constructor
  · intro h
    simp [re_validator, h]
  · intro h handle
    simp [re_validator, h, Except.map]

/-- Witness for C3 at a concrete match predicate, value and continuation. -/
theorem re_validator_gates_handler_witness :
    ((fun s : String => decide (s = "ok")) "ok" = true
      ∧ re_validator (fun s => decide (s = "ok")) "^ok$" "region" "ok" = .ok "ok")
    ∧ ((fun s : String => decide (s = "ok")) "bad" = false
      ∧ (re_validator (fun s => decide (s = "ok")) "^ok$" "region" "bad").map String.length =
          .error (1, "Bad Request: \x27" ++ "bad" ++ "\x27 does not match \x27" ++
            "^ok$" ++ "\x27 - \x27" ++ "region" ++ "\x27")) :=
  ⟨⟨by decide, (re_validator_gates_handler (γ := Nat) _ _ _ _).1 (by decide)⟩,
   ⟨by decide, (re_validator_gates_handler (γ := Nat) _ _ _ _).2 (by decide) String.length⟩⟩

/-- C4 counterexample: a parameter whose declared `type` is the OpenAPI
spelling `integer` (and that has no `pattern`) is given no coercion at all —
the `type_map` of `gen_parser` only maps the tag `int` — so "integer values
coerced to integers" fails on the code. -/
theorem coercion_integer_counterexample :
    select_type_coerce { name := "max-results", body := false, type_ := some "integer" } =
      TypeCoerce.noCoerce
    ∧ select_type_coerce { name := "max-results", body := false, type_ := some "integer" } ≠
      TypeCoerce.pyInt := by
  decide

/-- C4 (amended): the grammar builder selects the coercion from the
parameter's type tag through `type_map` — `int` to the integer coercion,
`boolean` to the boolean converter, `byte` to the file-reading base64
transform, and any other or absent tag (including `integer` and `string`) to
no coercion — unless a `pattern` is present, in which case the
pattern-checking coercion takes precedence. -/
theorem select_type_coerce_spec (param : ParamDesc) :
    (∀ pat, param.pattern = some pat →
      select_type_coerce param = .patternCheck pat param.name)
    ∧ (param.pattern = none → param.type_ = some "int" →
      select_type_coerce param = .pyInt)
    ∧ (param.pattern = none → param.type_ = some "boolean" →
      select_type_coerce param = .boolConv)
    ∧ (param.pattern = none → param.type_ = some "byte" →
      select_type_coerce param = .fileB64)
    ∧ (param.pattern = none → ∀ t, param.type_ = some t →
      t ≠ "int" → t ≠ "boolean" → t ≠ "byte" →
      select_type_coerce param = .noCoerce)
    ∧ (param.pattern = none → param.type_ = none →
      select_type_coerce param = .noCoerce) := by
  refine ⟨?_, ?_, ?_, ?_, ?_, ?_⟩
  · intro pat h
    simp [select_type_coerce, h]
  · intro h1 h2
    simp [select_type_coerce, h1, h2, type_map, List.lookup]
  · intro h1 h2
    simp [select_type_coerce, h1, h2, type_map, List.lookup]
  · intro h1 h2
    simp [select_type_coerce, h1, h2, type_map, List.lookup]
  · intro h1 t h2 n1 n2 n3
    have e1 : (t == "int") = false := by simp [n1]
    have e2 : (t == "boolean") = false := by simp [n2]
    have e3 : (t == "byte") = false := by simp [n3]
    simp [select_type_coerce, h1, h2, type_map, List.lookup, e1, e2, e3]
  · intro h1 h2
    simp [select_type_coerce, h1, h2]

/-- Witness for C4's amended claim: pattern precedence over a mapped type
tag, and the `boolean` tag selecting the boolean converter. -/
theorem select_type_coerce_spec_witness :
    (({ name := "n", body := false, pattern := some "p", type_ := some "boolean" } : ParamDesc).pattern = some "p"
      ∧ select_type_coerce { name := "n", body := false, pattern := some "p", type_ := some "boolean" } =
        TypeCoerce.patternCheck "p" "n")
    ∧ select_type_coerce { name := "m", body := false, type_ := some "boolean" } =
        TypeCoerce.boolConv :=
  ⟨⟨rfl, (select_type_coerce_spec _).1 "p" rfl⟩,
   (select_type_coerce_spec _).2.2.1 rfl rfl⟩

/-- C2: for an operation without a registered middleware, a handler exception
is caught at the dispatch boundary, printed as a structured error object, and
the process exits with status 1; no handler outcome ever lets `dispatch`
propagate an exception to `main`'s generic fault path. -/
theorem dispatch_catches_handler_errors {β ρ ε μ : Type} (truthyA : β → Bool)
    (truthyR : ρ → Bool) (excMessage : ε → μ) (elapsed : Nat) (operation : String)
    (params : List ParamDesc)
    (handler : Option (List (String × β)) → List β → List (String × β) → Except ε (Option ρ))
    (args : List (String × β))
    (b : List (String × β)) (p : List β) (k : List (String × β))
    (hop : operation ≠ "list-clusters")
    (hconv : convert_args params args = some (b, p, k)) :
    (∀ e, handler (if b.isEmpty then none else some b) p k = .error e →
      main_run (dispatch truthyA truthyR excMessage elapsed operation params handler args) =
        (1, [Printed.errJson (excMessage e)]))
    ∧ (∀ ex printed,
      dispatch truthyA truthyR excMessage elapsed operation params handler args ≠
        RunOutcome.raised ex printed) := by
  constructor
  · intro e he
    simp [dispatch, hconv, hop, he, main_run]
  · intro ex printed
    simp only [dispatch, hconv, if_neg hop]
    cases handler (if b.isEmpty then none else some b) p k with
    | error e => simp
    | ok ret =>
      cases ret with
      | none => simp
      | some v => cases h : truthyR v <;> simp [h]

/-- Witness for C2 at a concrete failing handler. -/
theorem dispatch_catches_handler_errors_witness :
    ("create-cluster" ≠ "list-clusters")
    ∧ convert_args ([] : List ParamDesc) ([] : List (String × Unit)) = some ([], [], [])
    ∧ main_run (dispatch (fun _ : Unit => true) (fun _ : Unit => true)
        (fun e : Unit => e) 0 "create-cluster" []
        (fun _ _ _ => Except.error ()) []) = (1, [Printed.errJson ()]) :=
  ⟨by decide, rfl,
   (dispatch_catches_handler_errors (fun _ : Unit => true) (fun _ : Unit => true)
      (fun e : Unit => e) 0 "create-cluster" [] (fun _ _ _ => Except.error ()) []
      [] [] [] (by decide) rfl).1 () rfl⟩

/-- C8: for an operation without a registered middleware, a successful
handler invocation exits with status 0; a truthy result is printed once as
2-space-indented JSON and an absent or falsy result prints nothing. -/
theorem dispatch_success_renders_and_exits_zero {β ρ ε μ : Type} (truthyA : β → Bool)
    (truthyR : ρ → Bool) (excMessage : ε → μ) (elapsed : Nat) (operation : String)
    (params : List ParamDesc)
    (handler : Option (List (String × β)) → List β → List (String × β) → Except ε (Option ρ))
    (args : List (String × β))
    (b : List (String × β)) (p : List β) (k : List (String × β)) (r : Option ρ)
    (hop : operation ≠ "list-clusters")
    (hconv : convert_args params args = some (b, p, k))
    (hok : handler (if b.isEmpty then none else some b) p k = .ok r) :
    main_run (dispatch truthyA truthyR excMessage elapsed operation params handler args) =
      (0, default_render truthyR r) := by
  simp only [dispatch, hconv, if_neg hop, hok]
  cases r with
  | none => simp [main_run, default_render]
  | some v => cases h : truthyR v <;> simp [h, main_run, default_render]

/-- Witness for C8: a truthy result prints JSON, and at another input an
absent result prints nothing; both exit 0. -/
theorem dispatch_success_witness :
    (main_run (dispatch (fun _ : Unit => true) (fun b : Bool => b)
        (fun _ : Unit => ()) 0
        "create-cluster" [] (fun _ _ _ => Except.ok (some true)) []) =
      (0, [Printed.jsonIndent2 true]))
    ∧ (main_run (dispatch (fun _ : Unit => true) (fun b : Bool => b)
        (fun _ : Unit => ()) 0 "create-cluster" []
        (fun _ _ _ => Except.ok none) []) = (0, [])) :=
  ⟨dispatch_success_renders_and_exits_zero (fun _ : Unit => true) (fun b : Bool => b)
      (fun _ : Unit => ()) 0 "create-cluster" [] (fun _ _ _ => Except.ok (some true)) []
      [] [] [] (some true) (by decide) rfl rfl,
   dispatch_success_renders_and_exits_zero (fun _ : Unit => true) (fun b : Bool => b)
      (fun _ : Unit => ()) 0 "create-cluster" [] (fun _ _ _ => Except.ok none) []
      [] [] [] none (by decide) rfl rfl⟩

/-- C9: for the `list-clusters` operation the registered timing middleware
owns invocation: with a truthy `time` flag it invokes the handler on the
remaining keyword arguments, suppresses the default JSON rendering, and
prints the pretty-printed result plus a duration line; with the flag falsy or
absent the handler's result is returned for default rendering. -/
theorem timing_middleware_controls_rendering {β ρ ε μ : Type} (truthyA : β → Bool)
    (truthyR : ρ → Bool) (excMessage : ε → μ) (elapsed : Nat)
    (params : List ParamDesc)
    (handler : Option (List (String × β)) → List β → List (String × β) → Except ε (Option ρ))
    (args : List (String × β))
    (b : List (String × β)) (p : List β) (k : List (String × β))
    (hconv : convert_args params args = some (b, p, k)) :
    (∀ tv k', listPop "time" k = some (tv, k') → truthyA tv = true →
      ∀ r, handler (if b.isEmpty then none else some b) p k' = .ok r →
        dispatch truthyA truthyR excMessage elapsed "list-clusters" params handler args =
          .finished [Printed.prettyRet r, Printed.tookLine elapsed])
    ∧ (∀ tv k', listPop "time" k = some (tv, k') → truthyA tv = false →
      ∀ r, handler (if b.isEmpty then none else some b) p k' = .ok r →
        dispatch truthyA truthyR excMessage elapsed "list-clusters" params handler args =
          .finished (default_render truthyR r))
    ∧ (listPop "time" k = none →
      ∀ r, handler (if b.isEmpty then none else some b) p k = .ok r →
        dispatch truthyA truthyR excMessage elapsed "list-clusters" params handler args =
          .finished (default_render truthyR r)) := by
  refine ⟨?_, ?_, ?_⟩
  · intro tv k' hpop htrue r hok
    simp [dispatch, hconv, list_clusters_middleware, hpop, htrue, hok]
  · intro tv k' hpop hfalse r hok
    simp only [dispatch, hconv, list_clusters_middleware, hpop, hfalse, hok, if_true, if_false]
    cases r with
    | none => simp [default_render]
    | some v => cases h : truthyR v <;> simp [h, default_render]
  · intro hpop r hok
    simp only [dispatch, hconv, list_clusters_middleware, hpop, hok]
    cases r with
    | none => simp [default_render]
    | some v => cases h : truthyR v <;> simp [h, default_render]

/-- Witness for C9: with the `time` flag set the run prints the result and a
duration line; without it the result is rendered as JSON. -/
theorem timing_middleware_witness :
    (listPop "time" [("time", true)] = some (true, [])
      ∧ dispatch (fun b : Bool => b) (fun b : Bool => b) (fun e : Unit => e) 7
          "list-clusters" [] (fun _ _ _ => Except.ok (some true)) [("time", true)] =
        RunOutcome.finished [Printed.prettyRet (some true), Printed.tookLine 7])
    ∧ dispatch (fun b : Bool => b) (fun b : Bool => b) (fun e : Unit => e) 7
        "list-clusters" [] (fun _ _ _ => Except.ok (some true)) [("time", false)] =
      RunOutcome.finished [Printed.jsonIndent2 true] :=
  ⟨⟨rfl,
    (timing_middleware_controls_rendering (fun b : Bool => b) (fun b : Bool => b)
      (fun e : Unit => e) 7 [] (fun _ _ _ => Except.ok (some true)) [("time", true)]
      [] [] [("time", true)] rfl).1 true [] rfl rfl (some true) rfl⟩,
   (timing_middleware_controls_rendering (fun b : Bool => b) (fun b : Bool => b)
      (fun e : Unit => e) 7 [] (fun _ _ _ => Except.ok (some true)) [("time", false)]
      [] [] [("time", false)] rfl).2.1 false [] rfl rfl (some true) rfl⟩

/-- C5: a `byte`-typed parameter's flag coercion is the file-reading base64
transform (applied at parse time), `read_file_b64` yields the base64 encoding
of the file's contents rather than the path string, and the body resolver
retypes a property with byte-encoding format to `byte`. -/
theorem byte_param_routes_base64 (p : ParamDesc)
    (h1 : p.type_ = some "byte") (h2 : p.pattern = none) :
    select_type_coerce p = .fileB64
    ∧ (read_file_b64 fsExample "/cfg" = "aGVsbG8="
      ∧ read_file_b64 fsExample "/cfg" ≠ "/cfg")
    ∧ (∀ schemas req name (pd : SchemaLeaf), pd.ref = none → pd.format = some "byte" →
      _resolve_body schemas { ref := none, required := req, properties := some [(name, pd)] } =
        some [{ name := to_kebab_case name, body := true,
                required := some ((req.getD []).contains name),
                description := pd.description, type_ := some "byte",
                enum := pd.enum, pattern := pd.pattern }]) := by
  refine ⟨?_, ⟨by decide, by decide⟩, ?_⟩
  · simp [select_type_coerce, h1, h2, type_map, List.lookup]
  · intro schemas req name pd href hfmt
    simp [_resolve_body, _resolve_ref, _resolve_ref_leaf, href, hfmt,
      List.mapM, List.mapM.loop]

/-- Witness for C5 at a concrete byte parameter and body property. -/
theorem byte_param_routes_base64_witness :
    (({ name := "cluster-configuration", body := true, type_ := some "byte" } : ParamDesc).type_ = some "byte")
    ∧ select_type_coerce { name := "cluster-configuration", body := true, type_ := some "byte" } =
        TypeCoerce.fileB64
    ∧ _resolve_body [] byteBodySchema =
        some [{ name := "cluster-configuration", body := true, required := some true,
                description := none, type_ := some "byte", enum := none, pattern := none }] :=
  ⟨rfl,
   (byte_param_routes_base64 _ rfl rfl).1,
   by
    have h := (byte_param_routes_base64
      { name := "cluster-configuration", body := true, type_ := some "byte" } rfl rfl).2.2
      [] (some ["clusterConfiguration"]) "clusterConfiguration"
      { ref := none, type_ := some "string", format := some "byte" } rfl rfl
    simpa [byteBodySchema] using h⟩

/-! ### Association-list lemmas for the model dictionary -/

theorem lookup_append_of_not_mem {β : Type _} (l1 l2 : List (String × β)) (k : String)
    (h : k ∉ l1.map Prod.fst) :
    List.lookup k (l1 ++ l2) = List.lookup k l2 := by
  induction l1 with
  | nil => rfl
  | cons kv rest ih =>
    obtain ⟨k1, v1⟩ := kv
    simp only [List.map_cons, List.mem_cons, not_or] at h
    have hne : (k == k1) = false := by
      simpa using h.1
    simp only [List.cons_append, List.lookup, hne]
    exact ih h.2

theorem lookup_append_left {β : Type _} (l1 l2 : List (String × β)) (k : String)
    (h : k ∈ l1.map Prod.fst) :
    List.lookup k (l1 ++ l2) = List.lookup k l1 := by
  induction l1 with
  | nil => simp at h
  | cons kv rest ih =>
    obtain ⟨k1, v1⟩ := kv
    by_cases hk : k = k1
    · have hbeq : (k == k1) = true := by simpa using hk
      simp only [List.cons_append, List.lookup, hbeq]
    · have hbeq : (k == k1) = false := by simpa using hk
      simp only [List.cons_append, List.lookup, hbeq]
      refine ih ?_
      simp only [List.map_cons, List.mem_cons] at h
      exact h.resolve_left hk

theorem dictInsert_eq_append {β : Type _} (d : List (String × β)) (k : String) (v : β)
    (h : k ∉ d.map Prod.fst) :
    dictInsert d k v = d ++ [(k, v)] := by
  have hany : d.any (fun kv => kv.1 = k) = false := by
    rw [List.any_eq_false]
    intro kv hkv
    simp only [decide_eq_true_eq]
    intro hk
    exact h (List.mem_map.mpr ⟨kv, hkv, hk⟩)
  simp [dictInsert, hany]

/-- The name the `load_model` loop keys an operation under. -/
def opKey (mop : String × Operation) : String := to_kebab_case mop.2.operationId

theorem load_model_go_spec (spec : ApiSpec) :
    ∀ (ops : List (String × Operation)) (model0 model : List (String × OpDescr)),
      load_model_go spec ops model0 = some model →
      (ops.map opKey).Nodup →
      (∀ mop ∈ ops, opKey mop ∉ model0.map Prod.fst) →
      model.length = model0.length + ops.length
      ∧ model.map Prod.fst = model0.map Prod.fst ++ ops.map opKey
      ∧ (∀ k, k ∈ model0.map Prod.fst → List.lookup k model = List.lookup k model0)
      ∧ (∀ mop ∈ ops, ∃ d, List.lookup (opKey mop) model = some d
          ∧ resolve_operation spec mop.2 = some d) := by
  intro ops
  induction ops with
  | nil =>
    intro model0 model h _ _
    cases h
    simp
  | cons mop rest ih =>
    intro model0 model h hnodup hdisj
    cases hres : resolve_operation spec mop.2 with
    | none => simp [load_model_go, hres] at h
    | some descr =>
      simp only [load_model_go, hres] at h
      have hnm : opKey mop ∉ model0.map Prod.fst := hdisj mop (List.mem_cons_self mop rest)
      rw [dictInsert_eq_append model0 (to_kebab_case mop.2.operationId) descr hnm] at h
      have hnodup' : (rest.map opKey).Nodup := (List.nodup_cons.mp (by simpa using hnodup)).2
      have hnotin : opKey mop ∉ rest.map opKey :=
        (List.nodup_cons.mp (by simpa using hnodup)).1
      have hdisj' : ∀ mop' ∈ rest, opKey mop' ∉ (model0 ++ [(opKey mop, descr)]).map Prod.fst := by
        intro mop' hm
        simp only [List.map_append, List.mem_append, List.map_cons, List.map_nil,
          List.mem_singleton, not_or]
        refine ⟨hdisj mop' (List.mem_cons_of_mem _ hm), ?_⟩
        intro hk
        exact hnotin (List.mem_map.mpr ⟨mop', hm, hk⟩)
      obtain ⟨hlen, hkeys, hpres, hmem⟩ := ih (model0 ++ [(opKey mop, descr)]) model h hnodup' hdisj'
      refine ⟨?_, ?_, ?_, ?_⟩
      · simp only [List.length_append, List.length_cons, List.length_nil] at hlen ⊢
        omega
      · rw [hkeys]
        simp [List.map_append]
      · intro k hk
        have hk' : k ∈ (model0 ++ [(opKey mop, descr)]).map Prod.fst := by
          simp only [List.map_append, List.mem_append]
          exact Or.inl hk
        rw [hpres k hk', lookup_append_left _ _ _ hk]
      · intro mop' hmem'
        rcases List.mem_cons.mp hmem' with heq | hm
        · subst heq
          refine ⟨descr, ?_, hres⟩
          have hk' : opKey mop' ∈ (model0 ++ [(opKey mop', descr)]).map Prod.fst := by
            simp [List.map_append]
          rw [hpres _ hk', lookup_append_of_not_mem _ _ _ hnm]
          simp [List.lookup_cons]
        · exact hmem mop' hm

theorem countOperations_eq_length (spec : ApiSpec) :
    countOperations spec = (allOps spec).length := by
  unfold countOperations allOps
  induction spec.paths with
  | nil => rfl
  | cons pr rest ih => simp [List.foldr_cons, ih]

/-- C7 (amended): for every schema document that `load_model` accepts and
whose operations' kebab-case-normalized `operationId`s are pairwise
distinct, the resolver produces exactly one descriptor per declared
operation, keyed by those unique normalized names, and an operation that
declares zero parameters (and no request body) still yields a descriptor
with an empty parameter sequence. -/
theorem load_model_count (spec : ApiSpec) (model : List (String × OpDescr))
    (hload : load_model spec = some model)
    (hnodup : ((allOps spec).map opKey).Nodup) :
    model.length = countOperations spec
    ∧ (model.map Prod.fst).Nodup
    ∧ model.map Prod.fst = (allOps spec).map opKey
    ∧ (∀ mop ∈ allOps spec, mop.2.parameters = [] → mop.2.requestBody = none →
        ∃ d, List.lookup (opKey mop) model = some d ∧ d.params = []) := by
  obtain ⟨hlen, hkeys, _, hmem⟩ :=
    load_model_go_spec spec (allOps spec) [] model hload hnodup (by simp)
  refine ⟨?_, ?_, ?_, ?_⟩
  · rw [hlen, countOperations_eq_length]
    simp
  · rw [hkeys]
    simpa using hnodup
  · simpa using hkeys
  · intro mop hm hp hrb
    obtain ⟨d, hlook, hres⟩ := hmem mop hm
    refine ⟨d, hlook, ?_⟩
    rw [resolve_operation, hp, hrb] at hres
    simp only [List.mapM_nil, Option.bind_eq_bind, Option.some_bind] at hres
    cases hres
    rfl

/-- Witness for C7 at a concrete two-operation document. -/
theorem load_model_count_witness :
    (load_model specExample).isSome = true
    ∧ ((allOps specExample).map opKey).Nodup
    ∧ ((load_model specExample).getD []).length = countOperations specExample
    ∧ (((load_model specExample).getD []).map Prod.fst).Nodup
    ∧ ((load_model specExample).getD []).map Prod.fst = (allOps specExample).map opKey := by
  have h := load_model_count specExample ((load_model specExample).getD [])
    (by decide) (by decide)
  exact ⟨by decide, by decide, h.1, h.2.1, h.2.2.1⟩

/-- C7 counterexample: a schema document declaring two operations whose
`operationId`s normalize to the same kebab-case name makes `load_model`
produce a single descriptor (the later operation overwrites the earlier
one), so "exactly N descriptors" fails as stated. -/
theorem load_model_collision_counterexample :
    countOperations specCollide = 2
    ∧ (load_model specCollide).map List.length = some 1 := by
  decide

/-! ### Behaviour of `listPop` and `dictUpdate` on unique-key dictionaries -/

theorem listPop_some {β : Type _} (k : String) (d : β) :
    ∀ l : List (String × β), k ∈ l.map Prod.fst → (l.map Prod.fst).Nodup →
    ∃ l', listPop k l = some (getv l k d, l')
      ∧ (l'.map Prod.fst).Nodup
      ∧ (∀ k', k' ≠ k → List.lookup k' l' = List.lookup k' l)
      ∧ (∀ k', k' ∈ l'.map Prod.fst ↔ (k' ≠ k ∧ k' ∈ l.map Prod.fst))
      ∧ (∀ Q : String × β → Bool, (∀ v, Q (k, v) = false) → l'.filter Q = l.filter Q) := by
  intro l
  induction l with
  | nil => intro hk; simp at hk
  | cons kv rest ih =>
    intro hk hnd
    obtain ⟨k1, v1⟩ := kv
    simp only [List.map_cons, List.nodup_cons] at hnd
    by_cases h1 : k1 = k
    · subst h1
      refine ⟨rest, ?_, hnd.2, ?_, ?_, ?_⟩
      · simp [listPop, getv, List.lookup]
      · intro k' hk'
        have hbeq : (k' == k1) = false := by simpa using hk'
        simp [List.lookup, hbeq]
      · intro k'
        constructor
        · intro hmem
          exact ⟨fun heq => hnd.1 (heq ▸ hmem), List.mem_cons_of_mem _ hmem⟩
        · intro ⟨hne, hmem⟩
          rcases List.mem_cons.mp hmem with heq | hmem'
          · exact absurd heq hne
          · exact hmem'
      · intro Q hQ
        simp [List.filter_cons, hQ v1]
    · have hkrest : k ∈ rest.map Prod.fst := by
        rcases List.mem_cons.mp hk with heq | hmem'
        · exact absurd heq.symm h1
        · exact hmem'
      obtain ⟨l'', hpop, hnd'', hlook'', hmem'', hfilter''⟩ := ih hkrest hnd.2
      have hne1 : (k1 = k) = False := by simp [h1]
      refine ⟨(k1, v1) :: l'', ?_, ?_, ?_, ?_, ?_⟩
      · have hgetv : getv ((k1, v1) :: rest) k d = getv rest k d := by
          have hbeq : (k == k1) = false := by
            simp
            exact fun heq => h1 heq.symm
          simp [getv, List.lookup, hbeq]
        simp [listPop, hne1, hpop, hgetv]
      · simp only [List.map_cons, List.nodup_cons]
        refine ⟨fun hmem => ?_, hnd''⟩
        exact hnd.1 ((hmem'' k1).mp hmem).2
      · intro k' hk'
        by_cases h2 : k' = k1
        · subst h2
          simp [List.lookup]
        · have hbeq : (k' == k1) = false := by simpa using h2
          simp only [List.lookup, hbeq]
          exact hlook'' k' hk'
      · intro k'
        simp only [List.map_cons, List.mem_cons]
        constructor
        · intro h
          rcases h with heq | hmem
          · exact ⟨fun hkk => h1 (heq ▸ hkk), Or.inl heq⟩
          · obtain ⟨hne, hm⟩ := (hmem'' k').mp hmem
            exact ⟨hne, Or.inr hm⟩
        · intro ⟨hne, h⟩
          rcases h with heq | hmem
          · exact Or.inl heq
          · exact Or.inr ((hmem'' k').mpr ⟨hne, hmem⟩)
      · intro Q hQ
        simp only [List.filter_cons]
        rw [hfilter'' Q hQ]

theorem dictUpdate_eq_append {β : Type _} :
    ∀ (d2 d1 : List (String × β)), (d2.map Prod.fst).Nodup →
      (∀ k ∈ d2.map Prod.fst, k ∉ d1.map Prod.fst) →
      dictUpdate d1 d2 = d1 ++ d2 := by
  intro d2
  induction d2 with
  | nil => intro d1 _ _; simp [dictUpdate]
  | cons kv rest ih =>
    intro d1 hnd hdisj
    obtain ⟨k, v⟩ := kv
    simp only [List.map_cons, List.nodup_cons] at hnd
    have hk : k ∉ d1.map Prod.fst := hdisj k (by simp)
    have hstep : dictUpdate d1 ((k, v) :: rest) = dictUpdate (dictInsert d1 k v) rest := by
      simp [dictUpdate]
    rw [hstep, dictInsert_eq_append _ _ _ hk, ih (d1 ++ [(k, v)]) hnd.2]
    · simp
    · intro k' hk'
      simp only [List.map_append, List.mem_append, List.map_cons, List.map_nil,
        List.mem_singleton, not_or]
      refine ⟨hdisj k' (List.mem_cons_of_mem _ hk'), ?_⟩
      intro heq
      exact hnd.1 (heq ▸ hk')

/-! ### The argument-router partition lemma -/

theorem convert_args_go_spec {β : Type _} (d : β) :
    ∀ (params : List ParamDesc) (args_in body0 : List (String × β))
      (pos0 : List β) (kw0 : List (String × β)),
      (params.map snakeKey).Nodup →
      (args_in.map Prod.fst).Nodup →
      (∀ p ∈ params, snakeKey p ∈ args_in.map Prod.fst) →
      (∀ p ∈ params, p.body = true → (bodyKey p).isSome = true) →
      ((params.filter (fun p => p.body)).map bkey).Nodup →
      (∀ p ∈ params, p.body = true → bkey p ∉ body0.map Prod.fst) →
      (∀ k ∈ args_in.map Prod.fst, k ∉ kw0.map Prod.fst) →
      convert_args_go params args_in body0 pos0 kw0 = some (
        body0 ++ (params.filter (fun p => p.body)).map
          (fun p => (bkey p, getv args_in (snakeKey p) d)),
        pos0 ++ (params.filter (fun p => !p.body && p.required.getD false)).map
          (fun p => getv args_in (snakeKey p) d),
        (kw0 ++ (params.filter (fun p => !p.body && !(p.required.getD false))).map
          (fun p => (snakeKey p, getv args_in (snakeKey p) d)))
          ++ args_in.filter (fun kv => !((params.map snakeKey).contains kv.1))) := by
  intro params
  induction params with
  | nil =>
    intro args_in body0 pos0 kw0 _ hargs _ _ _ _ hkw0
    have hupd := dictUpdate_eq_append args_in kw0 hargs hkw0
    simp [convert_args_go, hupd]
  | cons p ps ih =>
    intro args_in body0 pos0 kw0 hsnake hargs hcover hbks hbknodup hbody0 hkw0
    have hkmem : snakeKey p ∈ args_in.map Prod.fst := hcover p (List.mem_cons_self p ps)
    obtain ⟨args', hpop, hnd', hlook', hmem', hfilter'⟩ :=
      listPop_some (snakeKey p) d args_in hkmem hargs
    simp only [List.map_cons, List.nodup_cons] at hsnake
    have hpnotin : snakeKey p ∉ ps.map snakeKey := hsnake.1
    have hsnake' : (ps.map snakeKey).Nodup := hsnake.2
    have hkne : ∀ q ∈ ps, snakeKey q ≠ snakeKey p := by
      intro q hq heq
      exact hpnotin (heq ▸ List.mem_map.mpr ⟨q, hq, rfl⟩)
    have hcover' : ∀ q ∈ ps, snakeKey q ∈ args'.map Prod.fst := by
      intro q hq
      exact (hmem' _).mpr ⟨hkne q hq, hcover q (List.mem_cons_of_mem _ hq)⟩
    have hbks' : ∀ q ∈ ps, q.body = true → (bodyKey q).isSome = true :=
      fun q hq => hbks q (List.mem_cons_of_mem _ hq)
    have hgetv : ∀ q ∈ ps, getv args' (snakeKey q) d = getv args_in (snakeKey q) d := by
      intro q hq
      simp [getv, hlook' _ (hkne q hq)]
    have hBeq : (ps.filter (fun q => q.body)).map
          (fun q => (bkey q, getv args' (snakeKey q) d))
        = (ps.filter (fun q => q.body)).map
          (fun q => (bkey q, getv args_in (snakeKey q) d)) := by
      refine List.map_congr_left ?_
      intro q hq
      rw [hgetv q (List.mem_of_mem_filter hq)]
    have hPeq : (ps.filter (fun q => !q.body && q.required.getD false)).map
          (fun q => getv args' (snakeKey q) d)
        = (ps.filter (fun q => !q.body && q.required.getD false)).map
          (fun q => getv args_in (snakeKey q) d) := by
      refine List.map_congr_left ?_
      intro q hq
      exact hgetv q (List.mem_of_mem_filter hq)
    have hKeq : (ps.filter (fun q => !q.body && !(q.required.getD false))).map
          (fun q => (snakeKey q, getv args' (snakeKey q) d))
        = (ps.filter (fun q => !q.body && !(q.required.getD false))).map
          (fun q => (snakeKey q, getv args_in (snakeKey q) d)) := by
      refine List.map_congr_left ?_
      intro q hq
      rw [hgetv q (List.mem_of_mem_filter hq)]
    have hLeq : args'.filter (fun kv => !((ps.map snakeKey).contains kv.1))
        = args_in.filter (fun kv => !(((p :: ps).map snakeKey).contains kv.1)) := by
      have h1 : args_in.filter (fun kv => !(((p :: ps).map snakeKey).contains kv.1))
          = args'.filter (fun kv => !(((p :: ps).map snakeKey).contains kv.1)) := by
        refine (hfilter' _ ?_).symm
        intro v
        simp [List.contains_cons]
      have h2 : args'.filter (fun kv => !(((p :: ps).map snakeKey).contains kv.1))
          = args'.filter (fun kv => !((ps.map snakeKey).contains kv.1)) := by
        refine List.filter_congr ?_
        intro kv hkv
        have hne : kv.1 ≠ snakeKey p := by
          have := (hmem' kv.1).mp (List.mem_map.mpr ⟨kv, hkv, rfl⟩)
          exact this.1
        have hbeq : (kv.1 == snakeKey p) = false := by simpa using hne
        simp only [List.map_cons, List.contains_cons, hbeq, Bool.false_or]
      rw [h1, h2]
    by_cases hb : p.body = true
    · have hbko := hbks p (List.mem_cons_self p ps) hb
      obtain ⟨bk, hbkeq⟩ := Option.isSome_iff_exists.mp hbko
      have hbkval : bkey p = bk := by simp [bkey, hbkeq]
      have hfiltercons : (p :: ps).filter (fun q => q.body) = p :: ps.filter (fun q => q.body) := by
        simp [List.filter_cons, hb]
      have hbknodup' : ((ps.filter (fun q => q.body)).map bkey).Nodup := by
        rw [hfiltercons] at hbknodup
        exact (List.nodup_cons.mp hbknodup).2
      have hbknotinps : bkey p ∉ (ps.filter (fun q => q.body)).map bkey := by
        rw [hfiltercons] at hbknodup
        exact (List.nodup_cons.mp hbknodup).1
      have hbknotin0 : bk ∉ body0.map Prod.fst :=
        hbkval ▸ hbody0 p (List.mem_cons_self p ps) hb
      have hbody0' : ∀ q ∈ ps, q.body = true →
          bkey q ∉ (body0 ++ [(bk, getv args_in (snakeKey p) d)]).map Prod.fst := by
        intro q hq hqb
        simp only [List.map_append, List.mem_append, List.map_cons, List.map_nil,
          List.mem_singleton, not_or]
        refine ⟨hbody0 q (List.mem_cons_of_mem _ hq) hqb, ?_⟩
        intro heq
        refine hbknotinps ?_
        rw [hbkval, ← heq]
        exact List.mem_map.mpr ⟨q, List.mem_filter.mpr ⟨hq, by simp [hqb]⟩, rfl⟩
      have hkw0' : ∀ k ∈ args'.map Prod.fst, k ∉ kw0.map Prod.fst := by
        intro k hk
        exact hkw0 k ((hmem' k).mp hk).2
      have hih := ih args' (body0 ++ [(bk, getv args_in (snakeKey p) d)]) pos0 kw0
        hsnake' hnd' hcover' hbks' hbknodup' hbody0' hkw0'
      rw [convert_args_go, hpop]
      simp only [hb, if_true, hbkeq]
      rw [dictInsert_eq_append body0 bk (getv args_in (snakeKey p) d) hbknotin0, hih]
      rw [hBeq, hPeq, hKeq, hLeq]
      simp only [List.map_cons, hfiltercons, List.filter_cons, hb]
      simp [hbkval, List.append_assoc]
    · have hbfalse : p.body = false := by
        cases hpb : p.body
        · rfl
        · exact absurd hpb hb
      have hbknodup' : ((ps.filter (fun q => q.body)).map bkey).Nodup := by
        have : (p :: ps).filter (fun q => q.body) = ps.filter (fun q => q.body) := by
          simp [List.filter_cons, hbfalse]
        rwa [this] at hbknodup
      have hbody0same : ∀ q ∈ ps, q.body = true → bkey q ∉ body0.map Prod.fst :=
        fun q hq => hbody0 q (List.mem_cons_of_mem _ hq)
      by_cases hr : p.required.getD false = true
      · have hkw0' : ∀ k ∈ args'.map Prod.fst, k ∉ kw0.map Prod.fst := by
          intro k hk
          exact hkw0 k ((hmem' k).mp hk).2
        have hih := ih args' body0 (pos0 ++ [getv args_in (snakeKey p) d]) kw0
          hsnake' hnd' hcover' hbks' hbknodup' hbody0same hkw0'
        rw [convert_args_go, hpop]
        simp only [hbfalse, Bool.false_eq_true, if_false, hr, if_true]
        rw [hih, hBeq, hPeq, hKeq, hLeq]
        simp [List.filter_cons, hbfalse, hr, List.append_assoc]
      · have hrfalse : p.required.getD false = false := by
          cases hpr : p.required.getD false
          · rfl
          · exact absurd hpr hr
        have hknotkw0 : snakeKey p ∉ kw0.map Prod.fst := hkw0 _ hkmem
        have hkw0' : ∀ k ∈ args'.map Prod.fst,
            k ∉ (kw0 ++ [(snakeKey p, getv args_in (snakeKey p) d)]).map Prod.fst := by
          intro k hk
          obtain ⟨hne, hmem⟩ := (hmem' k).mp hk
          simp only [List.map_append, List.mem_append, List.map_cons, List.map_nil,
            List.mem_singleton, not_or]
          exact ⟨hkw0 k hmem, hne⟩
        have hih := ih args' body0 pos0 (kw0 ++ [(snakeKey p, getv args_in (snakeKey p) d)])
          hsnake' hnd' hcover' hbks' hbknodup' hbody0same hkw0'
        rw [convert_args_go, hpop]
        simp only [hbfalse, Bool.false_eq_true, if_false, hrfalse]
        rw [dictInsert_eq_append kw0 (snakeKey p) (getv args_in (snakeKey p) d) hknotkw0, hih]
        rw [hBeq, hPeq, hKeq, hLeq]
        simp [List.filter_cons, hbfalse, hrfalse, List.append_assoc]

/-! ### Character-level facts for the naming transforms -/

theorem toNat_ofNat_valid (n : Nat) (h : n.isValidChar) : (Char.ofNat n).toNat = n := by
  rw [Char.ofNat, dif_pos h]
  rfl

theorem toNat_asciiLower_of_upper (c : Char) (h : isUpperA c = true) :
    (asciiLower c).toNat = c.toNat + 32 := by
  have hb : 65 ≤ c.toNat ∧ c.toNat ≤ 90 := by simpa [isUpperA] using h
  simp only [asciiLower, h, if_true]
  exact toNat_ofNat_valid _ (Or.inl (by omega))

theorem asciiLower_eq_self (c : Char) (h : isUpperA c = false) : asciiLower c = c := by
  simp [asciiLower, h]

theorem isUpperA_asciiLower (c : Char) : isUpperA (asciiLower c) = false := by
  cases h : isUpperA c with
  | false => rw [asciiLower_eq_self c h]; exact h
  | true =>
    have ht := toNat_asciiLower_of_upper c h
    have hb : 65 ≤ c.toNat ∧ c.toNat ≤ 90 := by simpa [isUpperA] using h
    simp only [isUpperA, ht]
    have hgt : ¬(c.toNat + 32 ≤ 90) := by omega
    simp [hgt]

theorem asciiLower_eq_nonletter {c ch : Char} (hch : ch.toNat < 97)
    (h : asciiLower c = ch) : c = ch := by
  cases hu : isUpperA c with
  | false => rwa [asciiLower_eq_self c hu] at h
  | true =>
    exfalso
    have ht := toNat_asciiLower_of_upper c hu
    have hb : 65 ≤ c.toNat ∧ c.toNat ≤ 90 := by simpa [isUpperA] using hu
    have heq : (asciiLower c).toNat = ch.toNat := by rw [h]
    omega

theorem headIsLower_map (f : Char → Char) (Hl : ∀ c, isLowerA (f c) = isLowerA c) :
    ∀ l : List Char, headIsLower (l.map f) = headIsLower l
  | [] => rfl
  | c :: _ => by simp [headIsLower, Hl c]

theorem replFun_class (p : Char → Bool) (a b : Char) (hab : p a = p b) (c : Char) :
    p (replFun a b c) = p c := by
  by_cases h : c = a
  · subst h
    rw [show replFun c b c = b from by simp [replFun]]
    exact hab.symm
  · rw [show replFun a b c = c from by simp [replFun, h]]

theorem mem_pyReplace {a b c : Char} {l : List Char} (h : c ∈ pyReplace a b l) :
    c = b ∨ (c ∈ l ∧ c ≠ a) := by
  simp only [pyReplace, List.mem_map] at h
  obtain ⟨d, hd, hdc⟩ := h
  by_cases hda : d = a
  · subst hda
    rw [show replFun d b d = b from by simp [replFun]] at hdc
    exact Or.inl hdc.symm
  · rw [show replFun a b d = d from by simp [replFun, hda]] at hdc
    subst hdc
    exact Or.inr ⟨hd, hda⟩

theorem pyReplace_eq_self {a b : Char} {l : List Char} (h : a ∉ l) :
    pyReplace a b l = l := by
  induction l with
  | nil => rfl
  | cons x xs ih =>
    simp only [pyReplace, List.map_cons]
    have hxa : x ≠ a := fun hx => h (List.mem_cons.mpr (Or.inl hx.symm))
    rw [show replFun a b x = x from by simp [replFun, hxa]]
    have hxs : a ∉ xs := fun hx => h (List.mem_cons_of_mem _ hx)
    have := ih hxs
    simp only [pyReplace] at this
    rw [this]

theorem map_asciiLower_eq_self {l : List Char} (h : ∀ c ∈ l, isUpperA c = false) :
    l.map asciiLower = l := by
  induction l with
  | nil => rfl
  | cons x xs ih =>
    simp only [List.map_cons]
    rw [asciiLower_eq_self x (h x (List.mem_cons_self x xs)),
      ih (fun c hc => h c (List.mem_cons_of_mem _ hc))]

theorem asciiLower_replFun (a b : Char) (haU : isUpperA a = false) (ha : a.toNat < 97)
    (hb : isUpperA b = false) (c : Char) :
    asciiLower (replFun a b c) = replFun a b (asciiLower c) := by
  by_cases h : c = a
  · subst h
    rw [asciiLower_eq_self c haU]
    rw [show replFun c b c = b from by simp [replFun]]
    exact asciiLower_eq_self b hb
  · rw [show replFun a b c = c from by simp [replFun, h]]
    have h2 : asciiLower c ≠ a := fun heq => h (asciiLower_eq_nonletter ha heq)
    rw [show replFun a b (asciiLower c) = asciiLower c from by simp [replFun, h2]]

theorem pyReplace_map_asciiLower (a b : Char) (haU : isUpperA a = false)
    (ha : a.toNat < 97) (hb : isUpperA b = false) (l : List Char) :
    pyReplace a b (l.map asciiLower) = (pyReplace a b l).map asciiLower := by
  simp only [pyReplace, List.map_map, Function.comp]
  exact List.map_congr_left fun c _ => (asciiLower_replFun a b haU ha hb c).symm

/-! ### Invariance lemmas for the two substitution passes -/

theorem sub1_id (sep : Char) : ∀ (skip : Bool) (l : List Char),
    (∀ c ∈ l, isUpperA c = false) → sub1 sep skip l = l := by
  intro skip l
  induction skip, l using sub1.induct sep with
  | case1 x => intro _; rfl
  | case2 x c => intro _; rfl
  | case3 skip c y rest2 hg ih =>
    intro h
    simp only [sub1]
    rw [if_pos hg, ih (fun c' hc' => h c' (List.mem_cons_of_mem _ hc'))]
  | case4 skip c y rest2 hg1 hg2 ih =>
    intro h
    exfalso
    simp only [Bool.and_eq_true] at hg2
    have hy := h y (by simp)
    rw [hy] at hg2
    exact Bool.false_ne_true hg2.1.2
  | case5 skip c y rest2 hg1 hg2 ih =>
    intro h
    simp only [sub1]
    rw [if_neg hg1, if_neg hg2, ih (fun c' hc' => h c' (List.mem_cons_of_mem _ hc'))]

theorem sub2_id (sep : Char) : ∀ l : List Char,
    (∀ c ∈ l, isUpperA c = false) → sub2 sep l = l := by
  intro l
  induction l using sub2.induct sep with
  | case1 => intro _; rfl
  | case2 c => intro _; rfl
  | case3 x y rest hg ih =>
    intro h
    exfalso
    simp only [Bool.and_eq_true] at hg
    have hy := h y (by simp)
    rw [hy] at hg
    exact Bool.false_ne_true hg.2
  | case4 x y rest hg ih =>
    intro h
    simp only [sub2]
    rw [if_neg hg, ih (fun c hc => h c (List.mem_cons_of_mem _ hc))]

theorem mem_sub1 (sep : Char) : ∀ (skip : Bool) (l : List Char) (c : Char),
    c ∈ sub1 sep skip l → c = sep ∨ c ∈ l := by
  intro skip l
  induction skip, l using sub1.induct sep with
  | case1 x => intro c hc; simp [sub1] at hc
  | case2 x d => intro c hc; simp only [sub1] at hc; exact Or.inr hc
  | case3 skip d y rest2 hg ih =>
    intro c hc
    simp only [sub1] at hc
    rw [if_pos hg] at hc
    rcases List.mem_cons.mp hc with h1 | h2
    · exact Or.inr (by simp [h1])
    · rcases ih c h2 with h3 | h4
      · exact Or.inl h3
      · exact Or.inr (List.mem_cons_of_mem _ h4)
  | case4 skip d y rest2 hg1 hg2 ih =>
    intro c hc
    simp only [sub1] at hc
    rw [if_neg hg1, if_pos hg2] at hc
    rcases List.mem_cons.mp hc with h1 | hc2
    · exact Or.inr (by simp [h1])
    rcases List.mem_cons.mp hc2 with h2 | hc3
    · exact Or.inl h2
    rcases List.mem_cons.mp hc3 with h3 | hc4
    · exact Or.inr (by simp [h3])
    · rcases ih c hc4 with h5 | h6
      · exact Or.inl h5
      · exact Or.inr (by simp [h6])
  | case5 skip d y rest2 hg1 hg2 ih =>
    intro c hc
    simp only [sub1] at hc
    rw [if_neg hg1, if_neg hg2] at hc
    rcases List.mem_cons.mp hc with h1 | h2
    · exact Or.inr (by simp [h1])
    · rcases ih c h2 with h3 | h4
      · exact Or.inl h3
      · exact Or.inr (List.mem_cons_of_mem _ h4)

theorem mem_sub2 (sep : Char) : ∀ (l : List Char) (c : Char),
    c ∈ sub2 sep l → c = sep ∨ c ∈ l := by
  intro l
  induction l using sub2.induct sep with
  | case1 => intro c hc; simp [sub2] at hc
  | case2 d => intro c hc; simp only [sub2] at hc; exact Or.inr hc
  | case3 x y rest hg ih =>
    intro c hc
    simp only [sub2] at hc
    rw [if_pos hg] at hc
    rcases List.mem_cons.mp hc with h1 | hc2
    · exact Or.inr (by simp [h1])
    rcases List.mem_cons.mp hc2 with h2 | hc3
    · exact Or.inl h2
    rcases List.mem_cons.mp hc3 with h3 | hc4
    · exact Or.inr (by simp [h3])
    · rcases ih c hc4 with h5 | h6
      · exact Or.inl h5
      · exact Or.inr (by simp [h6])
  | case4 x y rest hg ih =>
    intro c hc
    simp only [sub2] at hc
    rw [if_neg hg] at hc
    rcases List.mem_cons.mp hc with h1 | h2
    · exact Or.inr (by simp [h1])
    · rcases ih c h2 with h3 | h4
      · exact Or.inl h3
      · exact Or.inr (List.mem_cons_of_mem _ h4)

theorem sub1_map (sep : Char) (f : Char → Char)
    (Hu : ∀ c, isUpperA (f c) = isUpperA c)
    (Hl : ∀ c, isLowerA (f c) = isLowerA c)
    (Hn : ∀ c, decide (f c = nlChar) = decide (c = nlChar)) :
    ∀ (skip : Bool) (l : List Char),
      (sub1 sep skip l).map f = sub1 (f sep) skip (l.map f) := by
  intro skip l
  induction skip, l using sub1.induct sep with
  | case1 x => rfl
  | case2 x c => rfl
  | case3 skip c y rest2 hg ih =>
    have hg' : (skip && isLowerA (f c)) = true := by rw [Hl c]; exact hg
    simp only [List.map_cons, sub1]
    rw [if_pos hg, if_pos hg']
    simp only [List.map_cons] at ih ⊢
    rw [ih]
  | case4 skip c y rest2 hg1 hg2 ih =>
    have hg1' : ¬(skip && isLowerA (f c)) = true := by rw [Hl c]; exact hg1
    have hdn : decide (f c ≠ nlChar) = decide (c ≠ nlChar) := by
      simp only [decide_not, Hn c]
    have hg2' : (decide (f c ≠ nlChar) && isUpperA (f y) && headIsLower (rest2.map f)) = true := by
      rw [hdn, Hu y, headIsLower_map f Hl rest2]; exact hg2
    simp only [List.map_cons, sub1]
    rw [if_neg hg1, if_neg hg1', if_pos hg2, if_pos hg2']
    simp only [List.map_cons] at ih ⊢
    rw [ih]
  | case5 skip c y rest2 hg1 hg2 ih =>
    have hg1' : ¬(skip && isLowerA (f c)) = true := by rw [Hl c]; exact hg1
    have hdn : decide (f c ≠ nlChar) = decide (c ≠ nlChar) := by
      simp only [decide_not, Hn c]
    have hg2' : ¬(decide (f c ≠ nlChar) && isUpperA (f y) && headIsLower (rest2.map f)) = true := by
      rw [hdn, Hu y, headIsLower_map f Hl rest2]; exact hg2
    simp only [List.map_cons, sub1]
    rw [if_neg hg1, if_neg hg1', if_neg hg2, if_neg hg2']
    simp only [List.map_cons] at ih ⊢
    rw [ih]

theorem sub2_map (sep : Char) (f : Char → Char)
    (Hu : ∀ c, isUpperA (f c) = isUpperA c)
    (Hl : ∀ c, isLowerA (f c) = isLowerA c)
    (Hd : ∀ c, isDigitA (f c) = isDigitA c) :
    ∀ l : List Char, (sub2 sep l).map f = sub2 (f sep) (l.map f) := by
  intro l
  induction l using sub2.induct sep with
  | case1 => rfl
  | case2 c => rfl
  | case3 x y rest hg ih =>
    have hg' : ((isLowerA (f x) || isDigitA (f x)) && isUpperA (f y)) = true := by
      rw [Hl x, Hd x, Hu y]; exact hg
    simp only [List.map_cons, sub2]
    rw [if_pos hg, if_pos hg']
    simp only [List.map_cons] at ih ⊢
    rw [ih]
  | case4 x y rest hg ih =>
    have hg' : ¬((isLowerA (f x) || isDigitA (f x)) && isUpperA (f y)) = true := by
      rw [Hl x, Hd x, Hu y]; exact hg
    simp only [List.map_cons, sub2]
    rw [if_neg hg, if_neg hg']
    simp only [List.map_cons] at ih ⊢
    rw [ih]

/-! ### The two naming transforms differ only in their separator -/

theorem replFun_collapse1 (c : Char) :
    replFun hyphenChar underscoreChar (replFun underscoreChar hyphenChar c) =
      replFun hyphenChar underscoreChar c := by
  by_cases h1 : c = underscoreChar
  · subst h1; decide
  · by_cases h2 : c = hyphenChar
    · subst h2; decide
    · simp [replFun, h1, h2]

theorem replFun_collapse2 (c : Char) :
    replFun underscoreChar hyphenChar (replFun hyphenChar underscoreChar c) =
      replFun underscoreChar hyphenChar c := by
  by_cases h1 : c = hyphenChar
  · subst h1; decide
  · by_cases h2 : c = underscoreChar
    · subst h2; decide
    · simp [replFun, h1, h2]

theorem snakeL_eq_replace_kebab (l : List Char) :
    snakeL l = pyReplace hyphenChar underscoreChar (kebabL l) := by
  have fU : ∀ c, isUpperA (replFun hyphenChar underscoreChar c) = isUpperA c :=
    replFun_class isUpperA _ _ (by decide)
  have fL : ∀ c, isLowerA (replFun hyphenChar underscoreChar c) = isLowerA c :=
    replFun_class isLowerA _ _ (by decide)
  have fD : ∀ c, isDigitA (replFun hyphenChar underscoreChar c) = isDigitA c :=
    replFun_class isDigitA _ _ (by decide)
  have fN : ∀ c, decide (replFun hyphenChar underscoreChar c = nlChar) = decide (c = nlChar) :=
    replFun_class (fun c => decide (c = nlChar)) _ _ (by decide)
  have hR : pyReplace hyphenChar underscoreChar (kebabL l)
      = (sub2 underscoreChar (sub1 underscoreChar false
          (l.map (replFun hyphenChar underscoreChar)))).map asciiLower := by
    simp only [kebabL]
    rw [pyReplace_map_asciiLower hyphenChar underscoreChar (by decide) (by decide) (by decide)]
    show ((sub2 hyphenChar (pyReplace underscoreChar hyphenChar
      (sub1 hyphenChar false l))).map (replFun hyphenChar underscoreChar)).map asciiLower = _
    rw [sub2_map hyphenChar _ fU fL fD]
    rw [show replFun hyphenChar underscoreChar hyphenChar = underscoreChar from by decide]
    have hcol : (pyReplace underscoreChar hyphenChar (sub1 hyphenChar false l)).map
        (replFun hyphenChar underscoreChar)
        = (sub1 hyphenChar false l).map (replFun hyphenChar underscoreChar) := by
      simp only [pyReplace, List.map_map, Function.comp]
      exact List.map_congr_left fun c _ => replFun_collapse1 c
    rw [hcol, sub1_map hyphenChar _ fU fL fN]
    rw [show replFun hyphenChar underscoreChar hyphenChar = underscoreChar from by decide]
  have hL : snakeL l
      = (sub2 underscoreChar (sub1 underscoreChar false
          (l.map (replFun hyphenChar underscoreChar)))).map asciiLower := by
    simp only [snakeL]
    show ((sub2 underscoreChar ((sub1 underscoreChar false l).map
      (replFun hyphenChar underscoreChar))).map asciiLower) = _
    rw [sub1_map underscoreChar _ fU fL fN]
    rw [show replFun hyphenChar underscoreChar underscoreChar = underscoreChar from by decide]
  rw [hL, hR]

theorem kebabL_eq_replace_snake (l : List Char) :
    kebabL l = pyReplace underscoreChar hyphenChar (snakeL l) := by
  have gU : ∀ c, isUpperA (replFun underscoreChar hyphenChar c) = isUpperA c :=
    replFun_class isUpperA _ _ (by decide)
  have gL : ∀ c, isLowerA (replFun underscoreChar hyphenChar c) = isLowerA c :=
    replFun_class isLowerA _ _ (by decide)
  have gD : ∀ c, isDigitA (replFun underscoreChar hyphenChar c) = isDigitA c :=
    replFun_class isDigitA _ _ (by decide)
  have gN : ∀ c, decide (replFun underscoreChar hyphenChar c = nlChar) = decide (c = nlChar) :=
    replFun_class (fun c => decide (c = nlChar)) _ _ (by decide)
  have hR : pyReplace underscoreChar hyphenChar (snakeL l)
      = (sub2 hyphenChar (sub1 hyphenChar false
          (l.map (replFun underscoreChar hyphenChar)))).map asciiLower := by
    simp only [snakeL]
    rw [pyReplace_map_asciiLower underscoreChar hyphenChar (by decide) (by decide) (by decide)]
    show ((sub2 underscoreChar (pyReplace hyphenChar underscoreChar
      (sub1 underscoreChar false l))).map (replFun underscoreChar hyphenChar)).map asciiLower = _
    rw [sub2_map underscoreChar _ gU gL gD]
    rw [show replFun underscoreChar hyphenChar underscoreChar = hyphenChar from by decide]
    have hcol : (pyReplace hyphenChar underscoreChar (sub1 underscoreChar false l)).map
        (replFun underscoreChar hyphenChar)
        = (sub1 underscoreChar false l).map (replFun underscoreChar hyphenChar) := by
      simp only [pyReplace, List.map_map, Function.comp]
      exact List.map_congr_left fun c _ => replFun_collapse2 c
    rw [hcol, sub1_map underscoreChar _ gU gL gN]
    rw [show replFun underscoreChar hyphenChar underscoreChar = hyphenChar from by decide]
  have hL : kebabL l
      = (sub2 hyphenChar (sub1 hyphenChar false
          (l.map (replFun underscoreChar hyphenChar)))).map asciiLower := by
    simp only [kebabL]
    show ((sub2 hyphenChar ((sub1 hyphenChar false l).map
      (replFun underscoreChar hyphenChar))).map asciiLower) = _
    rw [sub1_map hyphenChar _ gU gL gN]
    rw [show replFun underscoreChar hyphenChar hyphenChar = hyphenChar from by decide]
  rw [hL, hR]

/-! ### Shape of the transform outputs -/

theorem snakeL_no_upper (l : List Char) : ∀ c ∈ snakeL l, isUpperA c = false := by
  intro c hc
  simp only [snakeL, List.mem_map] at hc
  obtain ⟨d, _, hdc⟩ := hc
  rw [← hdc]
  exact isUpperA_asciiLower d

theorem kebabL_no_upper (l : List Char) : ∀ c ∈ kebabL l, isUpperA c = false := by
  intro c hc
  simp only [kebabL, List.mem_map] at hc
  obtain ⟨d, _, hdc⟩ := hc
  rw [← hdc]
  exact isUpperA_asciiLower d

theorem snakeL_no_hyphen (l : List Char) : hyphenChar ∉ snakeL l := by
  intro hc
  simp only [snakeL, List.mem_map] at hc
  obtain ⟨d, hd, hdc⟩ := hc
  have hdhy : d = hyphenChar := asciiLower_eq_nonletter (by decide) hdc
  subst hdhy
  rcases mem_sub2 _ _ _ hd with hsep | hmem
  · exact absurd hsep (by decide)
  · rcases mem_pyReplace hmem with hb | ⟨_, hne⟩
    · exact absurd hb (by decide)
    · exact hne rfl

theorem kebabL_no_underscore (l : List Char) : underscoreChar ∉ kebabL l := by
  intro hc
  simp only [kebabL, List.mem_map] at hc
  obtain ⟨d, hd, hdc⟩ := hc
  have hdun : d = underscoreChar := asciiLower_eq_nonletter (by decide) hdc
  subst hdun
  rcases mem_sub2 _ _ _ hd with hsep | hmem
  · exact absurd hsep (by decide)
  · rcases mem_pyReplace hmem with hb | ⟨_, hne⟩
    · exact absurd hb (by decide)
    · exact hne rfl

theorem snakeL_of_noUpper (y : List Char) (hup : ∀ c ∈ y, isUpperA c = false) :
    snakeL y = pyReplace hyphenChar underscoreChar y := by
  simp only [snakeL]
  rw [sub1_id underscoreChar false y hup]
  have hup' : ∀ c ∈ pyReplace hyphenChar underscoreChar y, isUpperA c = false := by
    intro c hc
    rcases mem_pyReplace hc with hb | ⟨hmem, _⟩
    · rw [hb]; decide
    · exact hup c hmem
  rw [sub2_id underscoreChar _ hup', map_asciiLower_eq_self hup']

theorem kebabL_of_noUpper (y : List Char) (hup : ∀ c ∈ y, isUpperA c = false) :
    kebabL y = pyReplace underscoreChar hyphenChar y := by
  simp only [kebabL]
  rw [sub1_id hyphenChar false y hup]
  have hup' : ∀ c ∈ pyReplace underscoreChar hyphenChar y, isUpperA c = false := by
    intro c hc
    rcases mem_pyReplace hc with hb | ⟨hmem, _⟩
    · rw [hb]; decide
    · exact hup c hmem
  rw [sub2_id hyphenChar _ hup', map_asciiLower_eq_self hup']

theorem snakeL_snakeL (l : List Char) : snakeL (snakeL l) = snakeL l := by
  rw [snakeL_of_noUpper _ (snakeL_no_upper l), pyReplace_eq_self (snakeL_no_hyphen l)]

theorem kebabL_kebabL (l : List Char) : kebabL (kebabL l) = kebabL l := by
  rw [kebabL_of_noUpper _ (kebabL_no_upper l), pyReplace_eq_self (kebabL_no_underscore l)]

theorem snakeL_kebabL (l : List Char) : snakeL (kebabL l) = snakeL l := by
  rw [snakeL_of_noUpper _ (kebabL_no_upper l)]
  exact (snakeL_eq_replace_kebab l).symm

theorem kebabL_snakeL (l : List Char) : kebabL (snakeL l) = kebabL l := by
  rw [kebabL_of_noUpper _ (snakeL_no_upper l)]
  exact (kebabL_eq_replace_snake l).symm

/-- C6: `to_kebab_case` and `to_snake_case` are pure total functions, each
idempotent on its own output, and mutual inverses up to case-folding:
`to_snake_case (to_kebab_case x) = to_snake_case x` and
`to_kebab_case (to_snake_case x) = to_kebab_case x` for every string. -/
theorem case_transforms_idempotent_and_inverse (s : String) :
    to_snake_case (to_snake_case s) = to_snake_case s
    ∧ to_kebab_case (to_kebab_case s) = to_kebab_case s
    ∧ to_snake_case (to_kebab_case s) = to_snake_case s
    ∧ to_kebab_case (to_snake_case s) = to_kebab_case s :=
  ⟨congrArg String.mk (snakeL_snakeL s.data),
   congrArg String.mk (kebabL_kebabL s.data),
   congrArg String.mk (snakeL_kebabL s.data),
   congrArg String.mk (kebabL_snakeL s.data)⟩

/-- C1: for an operation descriptor whose underscored parameter names are
collision-free (the spec's naming invariant) and a parsed-argument dictionary
containing a key for every declared parameter, `convert_args` partitions the
values into exactly three buckets in declaration order — Body parameters into
the payload under the first-lowered mixed-case name, non-Body required
parameters into the positional sequence, non-Body optional parameters into
the keyword dictionary under the underscored name — consuming every declared
parameter exactly once and passing all leftover entries through unchanged
into the keyword dictionary. -/
theorem convert_args_partitions {β : Type _} (d : β) (params : List ParamDesc)
    (args_in : List (String × β))
    (Hsnake : (params.map snakeKey).Nodup)
    (Hargs : (args_in.map Prod.fst).Nodup)
    (Hcover : ∀ p ∈ params, snakeKey p ∈ args_in.map Prod.fst)
    (Hbk : ∀ p ∈ params, p.body = true → (bodyKey p).isSome = true)
    (Hbknodup : ((params.filter (fun p => p.body)).map bkey).Nodup) :
    convert_args params args_in = some (
      (params.filter (fun p => p.body)).map
        (fun p => (bkey p, getv args_in (snakeKey p) d)),
      (params.filter (fun p => !p.body && p.required.getD false)).map
        (fun p => getv args_in (snakeKey p) d),
      ((params.filter (fun p => !p.body && !(p.required.getD false))).map
        (fun p => (snakeKey p, getv args_in (snakeKey p) d)))
        ++ args_in.filter (fun kv => !((params.map snakeKey).contains kv.1))) := by
  have h := convert_args_go_spec d params args_in [] [] []
    Hsnake Hargs Hcover Hbk Hbknodup (by simp) (by simp)
  simpa [convert_args] using h

/-- Witness for C1 at a concrete operation (one Body parameter, one required
query parameter, one optional query parameter) with one extra CLI-only
argument passed through. -/
theorem convert_args_partitions_witness :
    (([{ name := "cluster-name", body := true, required := some true },
       { name := "region", body := false, required := some true },
       { name := "next-token", body := false }] : List ParamDesc).map snakeKey).Nodup
    ∧ convert_args
        [{ name := "cluster-name", body := true, required := some true },
         { name := "region", body := false, required := some true },
         { name := "next-token", body := false }]
        [("cluster_name", 10), ("region", 20), ("next_token", 30), ("debug", 40)] =
      some ([("clusterName", 10)], [20], [("next_token", 30), ("debug", 40)]) := by
  constructor
  · decide
  · have h := convert_args_partitions 0
      [{ name := "cluster-name", body := true, required := some true },
       { name := "region", body := false, required := some true },
       { name := "next-token", body := false }]
      [("cluster_name", 10), ("region", 20), ("next_token", 30), ("debug", 40)]
      (by decide) (by decide) (by decide) (by decide) (by decide)
    rw [h]
    decide

end PclusterCli
